import Mathlib

/-!
Verification of `japanese_text_speech_processor`.

Shallow embedding of the two deterministic components of the repository:

* `src/text_processor.py`, `JapaneseTextProcessor.read_markdown_file`:
  markdown structure extraction performed by four independent Python
  regular expressions over the file content.  Each regex is embedded as a
  character-list scanner that reproduces the semantics of `re.findall`
  (left-to-right scan, non-overlapping matches, `^`/`$` under
  `re.MULTILINE`, greedy `\s+` with backtracking, lazy `[\s\S]*?`).

* `src/speech_processor_multi.py`, `JapaneseSpeechProcessorMulti`:
  `text_to_speech` (engine selection with fallback to a placeholder),
  `_use_gtts`, `_use_pyttsx3`, `_create_placeholder` and
  `speech_to_text`.  The external TTS engines are represented by their
  observable results (`Except` values carried by `EngineEnv`); the files
  written by the repository's own code are tracked in an explicit
  association-list file system.
-/

/-- Python `\s` character class, restricted to the ASCII whitespace
characters `空白 \t \n \r \x0b \x0c` (the inputs in this development are
within this range; Unicode-only whitespace is not used). -/
def isPySpace (c : Char) : Bool :=
  c == ' ' || c == '\t' || c == '\n' || c == '\r' || c == '\x0b' || c == '\x0c'

/-- Python `\w` character class (ASCII range): letters, digits, underscore. -/
def isWordChar (c : Char) : Bool :=
  c.isAlphanum || c == '_'

/-- The backtick character (U+0060). -/
def backtick : Char := Char.ofNat 96

/-- The characters of a triple-backtick fence. -/
def fenceDelim : List Char := [backtick, backtick, backtick]

/-- The bullet marker class `[-*+]` of the bullet-list regex. -/
def isBulletChar (c : Char) : Bool :=
  c == '-' || c == '*' || c == '+'

/-- Tail of a regex match `\s+(.+)$` when the maximal whitespace run
reaches the end of the input: the greedy `\s+` backtracks, leaving the
last non-newline whitespace character (if its index in the run is at
least 1) for `(.+)`, which then matches exactly that character; `$`
holds before the following newlines.  Returns the captured text and the
input remaining after the match. -/
def tailCap (ws : List Char) : Option (List Char × List Char) :=
  let trail := ws.reverse.takeWhile (fun c => c == '\n')
  match ws.reverse.dropWhile (fun c => c == '\n') with
  | [] => none
  | [_] => none
  | c :: _ :: _ => some ([c], trail)

/-- Match of the regex tail `\s+(.+)$` (as in `^(#{1,6})\s+(.+)$`,
`^\s*[-*+]\s+(.+)$`, `^\s*\d+\.\s+(.+)$`) against `r1`, the input
directly after the marker.  `\s+` greedily consumes the maximal
whitespace run (which may cross newlines); if a character follows, it is
not whitespace, so `(.+)` matches from there to the end of that line.
If the whitespace run reaches the end of input, `\s+` backtracks
(`tailCap`).  Returns the capture of `(.+)` and the remaining input. -/
def capAfterWs (r1 : List Char) : Option (List Char × List Char) :=
  let ws := r1.takeWhile isPySpace
  let r2 := r1.dropWhile isPySpace
  if ws.isEmpty then none
  else
    match r2 with
    | [] => tailCap ws
    | _ :: _ => some (r2.takeWhile (fun c => c != '\n'), r2.dropWhile (fun c => c != '\n'))

/-- One attempt of `^(#{1,6})\s+(.+)$` at a line-start position.
`#{1,6}` takes the run of leading `#` (backtracking cannot help, since
any shorter run is followed by another `#`), so the attempt fails unless
the run length is between 1 and 6; then `\s+(.+)$` follows.  Returns
(header level, captured text, remaining input). -/
def tryHeader (s : List Char) : Option (Nat × List Char × List Char) :=
  let m := (s.takeWhile (fun c => c == '#')).length
  if 1 ≤ m ∧ m ≤ 6 then
    match capAfterWs (s.dropWhile (fun c => c == '#')) with
    | some (cap, rest) => some (m, cap, rest)
    | none => none
  else none

/-- One attempt of `^\s*[-*+]\s+(.+)$` at a line-start position.  `\s*`
greedily consumes whitespace (possibly crossing newlines; backtracking
cannot help since the bullet markers are not whitespace), then one
bullet marker, then `\s+(.+)$`. -/
def tryBullet (s : List Char) : Option (List Char × List Char) :=
  match s.dropWhile isPySpace with
  | [] => none
  | c :: r2 => if isBulletChar c then capAfterWs r2 else none

/-- One attempt of `^\s*\d+\.\s+(.+)$` at a line-start position.  `\s*`
consumes whitespace, `\d+` the maximal digit run (backtracking cannot
help: a shorter run is followed by a digit, not by a dot), then a
literal dot, then `\s+(.+)$`. -/
def tryNumbered (s : List Char) : Option (List Char × List Char) :=
  let r1 := s.dropWhile isPySpace
  let d := (r1.takeWhile Char.isDigit).length
  if 1 ≤ d then
    match r1.dropWhile Char.isDigit with
    | c :: r3 => if c == '.' then capAfterWs r3 else none
    | [] => none
  else none

/-- Split the input at the first occurrence of a triple-backtick fence:
returns the text before the fence and the input after it.  This is the
lazy `([\s\S]*?)` + closing fence part of the code-block regex. -/
def findClose : List Char → Option (List Char × List Char)
  | [] => none
  | c :: rest =>
    if List.isPrefixOf fenceDelim (c :: rest) then some ([], (c :: rest).drop 3)
    else
      match findClose rest with
      | some (cap, r) => some (c :: cap, r)
      | none => none

/-- One attempt of the un-anchored code-block regex
`` ``` (?:\w+)? \n ([\s\S]*?) ``` `` at the current position: an opening
fence, an optional language-tag word (backtracking over a shorter word
run cannot help, since the next character would be a word character, not
a newline), a newline, then the lazy capture up to the first closing
fence. -/
def tryFence (s : List Char) : Option (List Char × List Char) :=
  if List.isPrefixOf fenceDelim s then
    match (s.drop 3).dropWhile isWordChar with
    | c :: r3 => if c == '\n' then findClose r3 else none
    | [] => none
  else none

/-- Scanner for `re.findall(r'^(#{1,6})\s+(.+)$', content, re.MULTILINE)`:
positions are tried left to right; `^` restricts attempts to line-start
positions (tracked by `atStart`); after a successful match the scan
resumes at the end of the match, after a failed attempt it advances one
character.  `fuel` bounds the recursion; every step consumes at least
one character, so `length + 1` initial fuel is always sufficient. -/
def headersFromF : Nat → Bool → List Char → List (Nat × String)
  | 0, _, _ => []
  | _ + 1, _, [] => []
  | fuel + 1, atStart, c :: rest =>
    if atStart then
      match tryHeader (c :: rest) with
      | some (m, cap, r2) => (m, String.mk cap) :: headersFromF fuel false r2
      | none => headersFromF fuel (c == '\n') rest
    else headersFromF fuel (c == '\n') rest

/-- Scanner for `re.findall(r'^\s*[-*+]\s+(.+)$', content, re.MULTILINE)`. -/
def bulletsFromF : Nat → Bool → List Char → List String
  | 0, _, _ => []
  | _ + 1, _, [] => []
  | fuel + 1, atStart, c :: rest =>
    if atStart then
      match tryBullet (c :: rest) with
      | some (cap, r2) => String.mk cap :: bulletsFromF fuel false r2
      | none => bulletsFromF fuel (c == '\n') rest
    else bulletsFromF fuel (c == '\n') rest

/-- Scanner for `re.findall(r'^\s*\d+\.\s+(.+)$', content, re.MULTILINE)`. -/
def numberedFromF : Nat → Bool → List Char → List String
  | 0, _, _ => []
  | _ + 1, _, [] => []
  | fuel + 1, atStart, c :: rest =>
    if atStart then
      match tryNumbered (c :: rest) with
      | some (cap, r2) => String.mk cap :: numberedFromF fuel false r2
      | none => numberedFromF fuel (c == '\n') rest
    else numberedFromF fuel (c == '\n') rest

/-- Scanner for the un-anchored
`re.findall(r'```(?:\w+)?\n([\s\S]*?)```', content)`: attempts at every
position, resuming after the whole match on success. -/
def blocksFromF : Nat → List Char → List String
  | 0, _ => []
  | _ + 1, [] => []
  | fuel + 1, c :: rest =>
    match tryFence (c :: rest) with
    | some (cap, r2) => String.mk cap :: blocksFromF fuel r2
    | none => blocksFromF fuel rest

/-- Headers extracted from a markdown string (`headers` field). -/
def headersOf (s : String) : List (Nat × String) :=
  headersFromF (s.data.length + 1) true s.data

/-- Bullet-list items extracted from a markdown string. -/
def bulletsOf (s : String) : List String :=
  bulletsFromF (s.data.length + 1) true s.data

/-- Numbered-list items extracted from a markdown string. -/
def numberedOf (s : String) : List String :=
  numberedFromF (s.data.length + 1) true s.data

/-- Code blocks extracted from a markdown string. -/
def blocksOf (s : String) : List String :=
  blocksFromF (s.data.length + 1) s.data

/-- The structure dictionary built by
`JapaneseTextProcessor.read_markdown_file`. -/
structure MarkdownStructure where
  raw_content : String
  headers : List (Nat × String)
  bullet_lists : List String
  numbered_lists : List String
  code_blocks : List String
deriving DecidableEq, Repr

/-- Pure core of `JapaneseTextProcessor.read_markdown_file`: the file
content has already been read (`read_text_file`); this builds the
structure dictionary from it. -/
def read_markdown_structure (content : String) : MarkdownStructure :=
  { raw_content := content
    headers := headersOf content
    bullet_lists := bulletsOf content
    numbered_lists := numberedOf content
    code_blocks := blocksOf content }

/-- `os.path.isabs` for POSIX paths: the path begins with a slash. -/
def isAbsPath (p : String) : Bool :=
  match p.data with
  | [] => false
  | c :: _ => c == '/'

/-- Path resolution common to `text_to_speech`, `speech_to_text` and
`analyze_audio`: an absolute path is used as is, a relative one is
joined to the processor's data directory. -/
def resolvePath (dataDir file : String) : String :=
  if isAbsPath file then file else dataDir ++ "/" ++ file

/-- Final component of a path (`pathlib.PurePath.name`). -/
def pathName (p : List Char) : List Char :=
  (p.reverse.takeWhile (fun c => c != '/')).reverse

/-- Length of the `pathlib` suffix of a file name, dot included: the
part from the last dot on, provided that dot is neither the first nor
the last character of the name; otherwise 0. -/
def suffixLen (name : List Char) : Nat :=
  let ext := (name.reverse.takeWhile (fun c => c != '.')).length
  if ext == name.length then 0
  else if 0 < name.length - ext - 1 ∧ name.length - ext - 1 < name.length - 1 then ext + 1
  else 0

/-- `pathlib.PurePath.with_suffix`: drop the current suffix of the final
path component (if any) and append the new one. -/
def withSuffix (p : String) (suffix : String) : String :=
  let d := p.data
  let k := suffixLen (pathName d)
  String.mk (d.take (d.length - k) ++ suffix.data)

/-- File system model: newest write first; a write shadows previous
content at the same path. -/
abbrev FS := List (String × String)

/-- Write (create or overwrite) a file. -/
def fsWrite (fs : FS) (p c : String) : FS := (p, c) :: fs

/-- Read a file; `none` when the path does not exist. -/
def fsRead (fs : FS) (p : String) : Option String :=
  (fs.find? (fun e => e.fst == p)).map (fun e => e.snd)

/-- Python `str.strip()` (ASCII whitespace range, cf. `isPySpace`). -/
def pyStrip (s : String) : String :=
  String.mk (((s.data.dropWhile isPySpace).reverse.dropWhile isPySpace).reverse)

/-- The characters of the `---` marker used by the placeholder text
file and by `speech_to_text`. -/
def tripleDash : List Char := ['-', '-', '-']

/-- Python `"---" in content`. -/
def containsTD : List Char → Bool
  | [] => false
  | c :: rest => List.isPrefixOf tripleDash (c :: rest) || containsTD rest

/-- Python `content.split("---")[0]`: the part before the first
occurrence of `---` (the whole string when there is none). -/
def splitTD : List Char → List Char
  | [] => []
  | c :: rest =>
    if List.isPrefixOf tripleDash (c :: rest) then [] else c :: splitTD rest

/-- Generic substring test (used to state that a message does or does
not include a failure reason). -/
def containsSubChars (pat : List Char) : List Char → Bool
  | [] => pat.isEmpty
  | c :: rest => List.isPrefixOf pat (c :: rest) || containsSubChars pat rest

/-- `pat` occurs as a substring of `s`. -/
def containsSubstr (s pat : String) : Bool := containsSubChars pat.data s.data

/-- Observable environment of `JapaneseSpeechProcessorMulti` for one
`text_to_speech` call: the import-time availability flags, whether
`pyttsx3.init()` produced an engine, and the outcome of the external
engine invocations for this request.  `gttsResult` is `.error e` when
the `gTTS` call raises an exception with message `e`; `pyttsx3Result`
is `.error e` on an exception, `.ok v` otherwise, with `v` recording
whether the written file exists and is non-empty. -/
structure EngineEnv where
  gttsAvailable : Bool
  pyttsx3Available : Bool
  pyttsx3Engine : Bool
  gttsResult : Except String Unit
  pyttsx3Result : Except String Bool

/-- `JapaneseSpeechProcessorMulti._use_gtts`: the exception from the
engine is caught and rendered as a failure message; on success the
output path is coerced to `.mp3`. -/
def use_gtts (env : EngineEnv) (fp : String) : Bool × String :=
  match env.gttsResult with
  | Except.ok _ => (true, "Successfully generated audio using Google TTS: " ++ withSuffix fp ".mp3")
  | Except.error e => (false, "Error using Google TTS (requires internet): " ++ e)

/-- `JapaneseSpeechProcessorMulti._use_pyttsx3`: an exception is caught
and rendered as a failure message; otherwise success depends on the
written file being present and non-empty. -/
def use_pyttsx3 (env : EngineEnv) (fp : String) : Bool × String :=
  match env.pyttsx3Result with
  | Except.ok true => (true, "Successfully generated audio using pyttsx3: " ++ fp)
  | Except.ok false => (false, "pyttsx3 failed to create a valid audio file")
  | Except.error e => (false, "Error using pyttsx3: " ++ e)

/-- The fixed text that `_create_placeholder` writes to the companion
`.txt` file after the input text: a blank line and four marker lines. -/
def placeholderNoteTail : String :=
  "\n\n" ++
  "--- This is a placeholder for text-to-speech output ---\n" ++
  "--- To enable actual TTS, install one of these packages: ---\n" ++
  "--- pip install pyttsx3 ---\n" ++
  "--- pip install gtts ---\n"

/-- Content written to the companion `.txt` file by
`_create_placeholder`. -/
def placeholderNoteFor (text : String) : String :=
  text ++ placeholderNoteTail

/-- Content written to the requested output path by
`_create_placeholder`. -/
def placeholderWav : String :=
  "PLACEHOLDER AUDIO FILE\nThis file would contain audio in a real implementation.\n"

/-- `JapaneseSpeechProcessorMulti._create_placeholder`: writes the
companion `.txt` note, then the marker file at the requested path, and
reports success.  File writes are modelled as always succeeding (an
OS-level write error is an environment failure outside the model). -/
def create_placeholder (text : String) (fp : String) (fs : FS) : (Bool × String) × FS :=
  let fs1 := fsWrite fs (withSuffix fp ".txt") (placeholderNoteFor text)
  let fs2 := fsWrite fs1 fp placeholderWav
  ((true, "Created placeholder (no TTS engines available)"), fs2)

/-- `JapaneseSpeechProcessorMulti.text_to_speech`: resolve the output
path, then select an engine by `engine_type` and availability; in
`auto` mode try gTTS first, fall back to pyttsx3, and only with no
usable engine create the placeholder.  Returns the `(success, message)`
pair together with the resulting file system.  Files written by the
external engines themselves are outside the model; only the
repository's own placeholder writes are tracked. -/
def text_to_speech (env : EngineEnv) (engineType dataDir text outputFile : String)
    (fs : FS) : (Bool × String) × FS :=
  let fp := resolvePath dataDir outputFile
  if engineType == "pyttsx3" && env.pyttsx3Available && env.pyttsx3Engine then
    (use_pyttsx3 env fp, fs)
  else if engineType == "gtts" && env.gttsAvailable then
    (use_gtts env fp, fs)
  else if engineType == "auto" then
    if env.gttsAvailable && (use_gtts env fp).fst then (use_gtts env fp, fs)
    else if env.pyttsx3Available && env.pyttsx3Engine then (use_pyttsx3 env fp, fs)
    else create_placeholder text fp fs
  else create_placeholder text fp fs

/-- Default message returned by `speech_to_text` when no companion text
file exists. -/
def sttDefaultMessage : String :=
  "音声認識機能は実装されていません。Speech-to-Text機能を使用するには、追加のライブラリとAPIキーが必要です。"

/-- `JapaneseSpeechProcessorMulti.speech_to_text`: resolve the path,
look for the companion `.txt` file; when present, return its content,
truncated before the first `---` marker and stripped if the marker
occurs; otherwise return the fixed not-implemented message. -/
def speech_to_text (dataDir : String) (fs : FS) (audioFile : String) : String :=
  let fp := resolvePath dataDir audioFile
  match fsRead fs (withSuffix fp ".txt") with
  | some content =>
    if containsTD content.data then pyStrip (String.mk (splitTD content.data))
    else content
  | none => sttDefaultMessage

/-- A character that cannot start any of the four markdown constructs:
not `#` (headers), not a bullet marker, not a digit (numbered lists),
not a backtick (code fences).  A string consisting only of such
characters contains zero markdown constructs. -/
def markerFree (c : Char) : Bool :=
  !(c == '#') && !(isBulletChar c) && !(c.isDigit) && !(c == backtick)

/-- Number of positions (overlapping occurrences counted) at which a
triple-backtick fence starts.  An input with an opening fence and no
matching closing fence has `fenceCount = 1`; a code-block match needs
an opening fence and a closing fence strictly after it, hence at least
two such positions. -/
def fenceCount : List Char → Nat
  | [] => 0
  | c :: rest =>
    (if List.isPrefixOf fenceDelim (c :: rest) then 1 else 0) + fenceCount rest

/-- Line-level reading of the header rule, following the (amended)
specification text: a line records a header exactly when it begins at
column 0 with one to six `#`, followed by at least one whitespace
character and then at least one further character; the level is the
count of `#` and the text is the remainder after the separating
whitespace, kept untrimmed on the right.  Defined on newline-free
lines; compared against the scanner `headersFromF` below. -/
def specLineHeader (l : List Char) : Option (Nat × String) :=
  let m := (l.takeWhile (fun c => c == '#')).length
  let r1 := l.dropWhile (fun c => c == '#')
  let ws := r1.takeWhile isPySpace
  let content := r1.dropWhile isPySpace
  if 1 ≤ m ∧ m ≤ 6 ∧ ws ≠ [] ∧ content ≠ [] then some (m, String.mk content) else none

/-- A line is tame when it does not trigger the cross-line behaviour of
the regex `^(#{1,6})\s+(.+)$`: if the line begins with one to six `#`,
something other than whitespace must follow them on the same line
(otherwise `\s+` would run past the line's end and capture text from a
later line). -/
def tameLine (l : List Char) : Bool :=
  let m := (l.takeWhile (fun c => c == '#')).length
  if 1 ≤ m ∧ m ≤ 6 then !((l.dropWhile (fun c => c == '#')).dropWhile isPySpace).isEmpty
  else true

/-- Join newline-free lines with `\n` separators (inverse of splitting
a document into lines; a trailing newline corresponds to a final empty
line). -/
def joinLines : List (List Char) → List Char
  | [] => []
  | [l] => l
  | l :: rest => l ++ '\n' :: joinLines rest

/-- Number of scanner steps needed to process each line: a matching
line is consumed by one match step plus one step over the separating
newline; a non-matching line costs one step per character plus the
newline. -/
def headerScanCost : List (List Char) → Nat
  | [] => 0
  | l :: rest =>
    (if (specLineHeader l).isSome then 2 else l.length + 1) + headerScanCost rest

/-! ## Helper lemmas -/

theorem mem_of_dropWhile_cons {p : Char → Bool} :
    ∀ {l r : List Char} {c : Char}, l.dropWhile p = c :: r → c ∈ l := by
  intro l
  induction l with
  | nil => intro r c h; simp [List.dropWhile] at h
  | cons a t ih =>
    intro r c h
    rw [List.dropWhile_cons] at h
    by_cases hp : p a
    · simp [hp] at h
      exact List.mem_cons_of_mem _ (ih h)
    · simp [hp] at h
      obtain ⟨rfl, -⟩ := h
      exact List.mem_cons_self a t

theorem tryHeader_eq_none_of_no_hash {s : List Char} (h : ∀ c ∈ s, c ≠ '#') :
    tryHeader s = none := by
  cases s with
  | nil => rfl
  | cons c rest =>
    have hc : (c == '#') = false := by
      simpa using h c (List.mem_cons_self c rest)
    simp [tryHeader, List.takeWhile_cons, hc]

theorem tryBullet_eq_none_of_no_bullet {s : List Char}
    (h : ∀ c ∈ s, isBulletChar c = false) : tryBullet s = none := by
  unfold tryBullet
  cases hd : s.dropWhile isPySpace with
  | nil => rfl
  | cons c r2 =>
    have hc : isBulletChar c = false := h c (mem_of_dropWhile_cons hd)
    simp [hc]

theorem tryNumbered_eq_none_of_no_digit {s : List Char}
    (h : ∀ c ∈ s, c.isDigit = false) : tryNumbered s = none := by
  unfold tryNumbered
  cases hd : s.dropWhile isPySpace with
  | nil => simp
  | cons c r2 =>
    have hc : c.isDigit = false := h c (mem_of_dropWhile_cons hd)
    simp [List.takeWhile_cons, hc]

theorem tryFence_eq_none_of_no_backtick {s : List Char}
    (h : ∀ c ∈ s, c ≠ backtick) : tryFence s = none := by
  cases s with
  | nil => rfl
  | cons c rest =>
    have hc : (backtick == c) = false := by
      have := h c (List.mem_cons_self c rest)
      simp [BEq.beq]
      exact fun hh => (this hh.symm).elim
    simp [tryFence, fenceDelim, List.isPrefixOf, hc]

theorem headersFromF_eq_nil (fuel : Nat) :
    ∀ (b : Bool) (s : List Char), (∀ c ∈ s, c ≠ '#') → headersFromF fuel b s = [] := by
  induction fuel with
  | zero => intro b s _; rfl
  | succ n ih =>
    intro b s h
    cases s with
    | nil => cases b <;> rfl
    | cons c rest =>
      have hrest : ∀ c2 ∈ rest, c2 ≠ '#' := fun c2 hm => h c2 (List.mem_cons_of_mem _ hm)
      cases b with
      | true =>
        simp [headersFromF, tryHeader_eq_none_of_no_hash h, ih _ _ hrest]
      | false =>
        simp [headersFromF, ih _ _ hrest]

theorem bulletsFromF_eq_nil (fuel : Nat) :
    ∀ (b : Bool) (s : List Char), (∀ c ∈ s, isBulletChar c = false) →
      bulletsFromF fuel b s = [] := by
  induction fuel with
  | zero => intro b s _; rfl
  | succ n ih =>
    intro b s h
    cases s with
    | nil => cases b <;> rfl
    | cons c rest =>
      have hrest : ∀ c2 ∈ rest, isBulletChar c2 = false :=
        fun c2 hm => h c2 (List.mem_cons_of_mem _ hm)
      cases b with
      | true =>
        simp [bulletsFromF, tryBullet_eq_none_of_no_bullet h, ih _ _ hrest]
      | false =>
        simp [bulletsFromF, ih _ _ hrest]

theorem numberedFromF_eq_nil (fuel : Nat) :
    ∀ (b : Bool) (s : List Char), (∀ c ∈ s, c.isDigit = false) →
      numberedFromF fuel b s = [] := by
  induction fuel with
  | zero => intro b s _; rfl
  | succ n ih =>
    intro b s h
    cases s with
    | nil => cases b <;> rfl
    | cons c rest =>
      have hrest : ∀ c2 ∈ rest, c2.isDigit = false :=
        fun c2 hm => h c2 (List.mem_cons_of_mem _ hm)
      cases b with
      | true =>
        simp [numberedFromF, tryNumbered_eq_none_of_no_digit h, ih _ _ hrest]
      | false =>
        simp [numberedFromF, ih _ _ hrest]

theorem blocksFromF_eq_nil (fuel : Nat) :
    ∀ (s : List Char), (∀ c ∈ s, c ≠ backtick) → blocksFromF fuel s = [] := by
  induction fuel with
  | zero => intro s _; rfl
  | succ n ih =>
    intro s h
    cases s with
    | nil => rfl
    | cons c rest =>
      have hrest : ∀ c2 ∈ rest, c2 ≠ backtick :=
        fun c2 hm => h c2 (List.mem_cons_of_mem _ hm)
      simp [blocksFromF, tryFence_eq_none_of_no_backtick h, ih _ hrest]

theorem tryHeader_bounds {s : List Char} {m : Nat} {cap r : List Char}
    (h : tryHeader s = some (m, cap, r)) : 1 ≤ m ∧ m ≤ 6 := by
  unfold tryHeader at h
  split at h
  all_goals simp only [] at h
  · split at h
    · rename_i hcond
      simp only [Option.some.injEq, Prod.mk.injEq] at h
      obtain ⟨rfl, -, -⟩ := h
      exact hcond
    · simp at h
  · split at h <;> simp at h

theorem headersFromF_bounds (fuel : Nat) :
    ∀ (b : Bool) (s : List Char) (m : Nat) (t : String),
      (m, t) ∈ headersFromF fuel b s → 1 ≤ m ∧ m ≤ 6 := by
  induction fuel with
  | zero => intro b s m t h; simp [headersFromF] at h
  | succ n ih =>
    intro b s m t h
    cases s with
    | nil => simp [headersFromF] at h
    | cons c rest =>
      cases b with
      | false =>
        rw [show headersFromF (n + 1) false (c :: rest)
              = headersFromF n (c == '\n') rest from rfl] at h
        exact ih _ _ _ _ h
      | true =>
        simp only [headersFromF, if_true] at h
        cases htry : tryHeader (c :: rest) with
        | none =>
          rw [htry] at h
          exact ih _ _ _ _ h
        | some v =>
          obtain ⟨m2, cap, r2⟩ := v
          rw [htry] at h
          rcases List.mem_cons.mp h with heq | hmem
          · injection heq with h1 h2
            subst h1
            exact tryHeader_bounds htry
          · exact ih _ _ _ _ hmem

theorem fsRead_write_self (fs : FS) (p c : String) :
    fsRead (fsWrite fs p c) p = some c := by
  simp [fsRead, fsWrite, List.find?_cons_of_pos]

theorem fsRead_write_ne (fs : FS) (p q c : String) (h : p ≠ q) :
    fsRead (fsWrite fs p c) q = fsRead fs q := by
  simp only [fsRead, fsWrite]
  rw [List.find?_cons_of_neg]
  simp [h]

theorem containsTD_append_of_right {b : List Char} (hb : containsTD b = true)
    (a : List Char) : containsTD (a ++ b) = true := by
  induction a with
  | nil => simpa using hb
  | cons c t ih => simp [containsTD, ih]

theorem containsTD_marker (a r : List Char) :
    containsTD (a ++ '\n' :: '\n' :: '-' :: '-' :: '-' :: r) = true := by
  apply containsTD_append_of_right
  simp [containsTD, tripleDash, List.isPrefixOf]

theorem isPrefixOf_TD_append {c : Char} {t : List Char}
    (h : List.isPrefixOf tripleDash (c :: t) = false) (r : List Char) :
    List.isPrefixOf tripleDash (c :: (t ++ '\n' :: r)) = false := by
  cases t with
  | nil => simp [tripleDash, List.isPrefixOf]
  | cons x xs =>
    cases xs with
    | nil => simp [tripleDash, List.isPrefixOf]
    | cons y ys => simpa [tripleDash, List.isPrefixOf] using h

theorem splitTD_marker (r : List Char) :
    ∀ a : List Char, containsTD a = false →
      splitTD (a ++ '\n' :: '\n' :: '-' :: '-' :: '-' :: r) = a ++ ['\n', '\n'] := by
  intro a
  induction a with
  | nil =>
    intro _
    simp [splitTD, tripleDash, List.isPrefixOf]
  | cons c t ih =>
    intro h
    have hsplit : List.isPrefixOf tripleDash (c :: t) = false ∧ containsTD t = false := by
      simpa [containsTD] using h
    have h3 := isPrefixOf_TD_append hsplit.1 ('\n' :: '-' :: '-' :: '-' :: r)
    simp only [List.cons_append, splitTD, List.append_eq]
    rw [if_neg (by rw [h3]; simp)]
    exact congrArg (c :: ·) (ih hsplit.2)

theorem stripChars_append_ws (l extra : List Char)
    (hx : ∀ c ∈ extra, isPySpace c = true) :
    (((l ++ extra).dropWhile isPySpace).reverse.dropWhile isPySpace).reverse
      = ((l.dropWhile isPySpace).reverse.dropWhile isPySpace).reverse := by
  rw [List.dropWhile_append]
  by_cases hnil : (l.dropWhile isPySpace).isEmpty
  · rw [if_pos hnil]
    have h1 : extra.dropWhile isPySpace = [] := List.dropWhile_eq_nil_iff.mpr hx
    have h2 : l.dropWhile isPySpace = [] := by
      rwa [List.isEmpty_iff] at hnil
    rw [h1, h2]
  · rw [if_neg hnil, List.reverse_append, List.dropWhile_append]
    have h1 : (extra.reverse.dropWhile isPySpace) = [] :=
      List.dropWhile_eq_nil_iff.mpr (fun c hc => hx c (List.mem_reverse.mp hc))
    rw [h1]
    simp

theorem pyStrip_append_nl2 (text : String) :
    pyStrip (String.mk (text.data ++ ['\n', '\n'])) = pyStrip text := by
  unfold pyStrip
  exact congrArg String.mk (stripChars_append_ws text.data ['\n', '\n'] (by decide))

theorem fenceCount_tail_le (c : Char) (rest : List Char) :
    fenceCount rest ≤ fenceCount (c :: rest) := by
  simp only [fenceCount]
  exact Nat.le_add_left _ _

theorem fenceCount_drop_le (n : Nat) : ∀ l : List Char, fenceCount (l.drop n) ≤ fenceCount l := by
  induction n with
  | zero => intro l; simp
  | succ k ih =>
    intro l
    cases l with
    | nil => simp
    | cons c rest =>
      calc fenceCount ((c :: rest).drop (k + 1)) = fenceCount (rest.drop k) := rfl
        _ ≤ fenceCount rest := ih rest
        _ ≤ fenceCount (c :: rest) := fenceCount_tail_le c rest

theorem fenceCount_dropWhile_le (p : Char → Bool) :
    ∀ l : List Char, fenceCount (l.dropWhile p) ≤ fenceCount l := by
  intro l
  induction l with
  | nil => simp
  | cons c rest ih =>
    rw [List.dropWhile_cons]
    by_cases hp : p c
    · simp only [hp, if_true]
      exact le_trans ih (fenceCount_tail_le c rest)
    · simp [hp]

theorem findClose_some_fenceCount :
    ∀ {l : List Char} {x : List Char × List Char},
      findClose l = some x → 1 ≤ fenceCount l := by
  intro l
  induction l with
  | nil => intro x h; simp [findClose] at h
  | cons c rest ih =>
    intro x h
    by_cases hp : List.isPrefixOf fenceDelim (c :: rest) = true
    · simp [fenceCount, hp]
    · rw [findClose, if_neg (by simp [hp])] at h
      simp only [fenceCount]
      simp [hp]
      cases hfc : findClose rest with
      | none => rw [hfc] at h; simp at h
      | some y => exact ih hfc

theorem tryFence_some_fenceCount {s : List Char} {x : List Char × List Char}
    (h : tryFence s = some x) : 2 ≤ fenceCount s := by
  cases s with
  | nil => simp [tryFence, fenceDelim, backtick, List.isPrefixOf] at h
  | cons c rest =>
    unfold tryFence at h
    split at h
    · rename_i hp
      split at h
      · rename_i c2 r3 hdw
        split at h
        · have h1 : 1 ≤ fenceCount r3 := findClose_some_fenceCount h
          have h2 : fenceCount r3 ≤ fenceCount (c2 :: r3) := fenceCount_tail_le c2 r3
          have h3 : fenceCount (c2 :: r3) ≤ fenceCount ((c :: rest).drop 3) := by
            rw [← hdw]
            exact fenceCount_dropWhile_le isWordChar _
          have h4 : fenceCount ((c :: rest).drop 3) ≤ fenceCount rest := by
            calc fenceCount ((c :: rest).drop 3) = fenceCount (rest.drop 2) := rfl
              _ ≤ fenceCount rest := fenceCount_drop_le 2 rest
          have h5 : 1 ≤ fenceCount rest := le_trans h1 (le_trans h2 (le_trans h3 h4))
          have h6 : fenceCount (c :: rest) = 1 + fenceCount rest := by
            simp [fenceCount, hp]
          omega
        · simp at h
      · simp at h
    · simp at h

theorem blocksFromF_eq_nil_of_one_fence (fuel : Nat) :
    ∀ s : List Char, fenceCount s ≤ 1 → blocksFromF fuel s = [] := by
  induction fuel with
  | zero => intro s _; rfl
  | succ n ih =>
    intro s h
    cases s with
    | nil => rfl
    | cons c rest =>
      cases htry : tryFence (c :: rest) with
      | some x =>
        have := tryFence_some_fenceCount htry
        omega
      | none =>
        have hrest : fenceCount rest ≤ 1 := le_trans (fenceCount_tail_le c rest) h
        simp [blocksFromF, htry, ih rest hrest]

theorem takeWhile_append_stop {p : Char → Bool} :
    ∀ (a : List Char) {c : Char} (b : List Char),
      (∀ x ∈ a, p x = true) → p c = false → (a ++ c :: b).takeWhile p = a := by
  intro a
  induction a with
  | nil => intro c b _ hc; simp [List.takeWhile_cons, hc]
  | cons x xs ih =>
    intro c b ha hc
    have hx : p x = true := ha x (List.mem_cons_self x xs)
    simp [List.takeWhile_cons, hx, ih b (fun y hy => ha y (List.mem_cons_of_mem _ hy)) hc]

theorem dropWhile_append_stop {p : Char → Bool} :
    ∀ (a : List Char) {c : Char} (b : List Char),
      (∀ x ∈ a, p x = true) → p c = false → (a ++ c :: b).dropWhile p = c :: b := by
  intro a
  induction a with
  | nil => intro c b _ hc; simp [List.dropWhile_cons, hc]
  | cons x xs ih =>
    intro c b ha hc
    have hx : p x = true := ha x (List.mem_cons_self x xs)
    simp [List.dropWhile_cons, hx, ih b (fun y hy => ha y (List.mem_cons_of_mem _ hy)) hc]

theorem headersFromF_nil_input : ∀ (fuel : Nat) (b : Bool), headersFromF fuel b [] = [] := by
  intro fuel b
  cases fuel <;> rfl

theorem headersFromF_false_no_nl :
    ∀ (fuel : Nat) (l : List Char), '\n' ∉ l → headersFromF fuel false l = [] := by
  intro fuel
  induction fuel with
  | zero => intro l _; rfl
  | succ n ih =>
    intro l hnl
    cases l with
    | nil => rfl
    | cons c rest =>
      have hc : (c == '\n') = false := by
        have : c ≠ '\n' := fun hh => hnl (hh ▸ List.mem_cons_self c rest)
        simpa using this
      calc headersFromF (n + 1) false (c :: rest)
          = headersFromF n (c == '\n') rest := rfl
        _ = headersFromF n false rest := by rw [hc]
        _ = [] := ih rest (fun hm => hnl (List.mem_cons_of_mem _ hm))

theorem isPySpace_ne_hash {c : Char} (h : isPySpace c = true) : (c == '#') = false := by
  by_contra hb
  simp only [Bool.not_eq_false, beq_iff_eq] at hb
  subst hb
  simp [isPySpace] at h

theorem specLineHeader_none_tryHeader {l tail : List Char}
    (htame : tameLine l = true) (hnone : specLineHeader l = none)
    (htail : tail = [] ∨ ∃ r, tail = '\n' :: r) :
    tryHeader (l ++ tail) = none := by
  by_cases h16 : 1 ≤ (l.takeWhile (fun c => c == '#')).length ∧
      (l.takeWhile (fun c => c == '#')).length ≤ 6
  · -- the line starts with one to six hashes; tameness forces content,
    -- so the spec rejection can only come from missing whitespace
    have hcontent : ((l.dropWhile (fun c => c == '#')).dropWhile isPySpace) ≠ [] := by
      have := htame
      unfold tameLine at this
      rw [if_pos h16] at this
      simpa using this
    have hws : (l.dropWhile (fun c => c == '#')).takeWhile isPySpace = [] := by
      by_contra hws
      have : specLineHeader l ≠ none := by
        unfold specLineHeader
        rw [if_pos ⟨h16.1, h16.2, hws, hcontent⟩]
        simp
      exact this hnone
    -- the remainder after the hashes starts with a non-space non-hash character
    have hr1 : l.dropWhile (fun c => c == '#') ≠ [] := by
      intro hh
      exact hcontent (by rw [hh]; rfl)
    obtain ⟨c0, r1, hr⟩ := List.exists_cons_of_ne_nil hr1
    have hc0hash : (c0 == '#') = false := by
      have := List.head?_dropWhile_not (fun c => c == '#') l
      rw [hr] at this
      simpa using this
    have hc0ws : isPySpace c0 = false := by
      by_contra hws0
      rw [hr, List.takeWhile_cons, if_pos (by simpa using hws0)] at hws
      simp at hws
    have hdecomp : l = l.takeWhile (fun c => c == '#') ++ c0 :: r1 := by
      conv_lhs => rw [← List.takeWhile_append_dropWhile (p := fun c => c == '#') (l := l)]
      rw [hr]
    have hallhash : ∀ x ∈ l.takeWhile (fun c => c == '#'), (x == '#') = true :=
      fun x hx => List.mem_takeWhile_imp (p := fun c => c == '#') hx
    unfold tryHeader
    have htake : ((l ++ tail).takeWhile (fun c => c == '#')) = l.takeWhile (fun c => c == '#') := by
      conv_lhs => rw [hdecomp]
      rw [List.append_assoc, List.cons_append]
      exact takeWhile_append_stop _ _ hallhash hc0hash
    have hdrop : ((l ++ tail).dropWhile (fun c => c == '#')) = c0 :: (r1 ++ tail) := by
      conv_lhs => rw [hdecomp]
      rw [List.append_assoc, List.cons_append]
      exact dropWhile_append_stop _ _ hallhash hc0hash
    rw [htake, hdrop]
    rw [if_pos h16]
    have hcap : capAfterWs (c0 :: (r1 ++ tail)) = none := by
      unfold capAfterWs
      simp [List.takeWhile_cons, hc0ws]
    rw [hcap]
  · -- fewer than one or more than six hashes: the hash run of the
    -- joined input is that of the line, so the attempt fails the bound
    have htake : ((l ++ tail).takeWhile (fun c => c == '#')) = l.takeWhile (fun c => c == '#') := by
      cases hr : l.dropWhile (fun c => c == '#') with
      | nil =>
        have hall : l.takeWhile (fun c => c == '#') = l := by
          have := List.takeWhile_append_dropWhile (p := fun c => c == '#') (l := l)
          rw [hr] at this
          simpa using this
        rcases htail with h0 | ⟨r, hr2⟩
        · rw [h0, List.append_nil]
        · rw [hr2, hall]
          exact takeWhile_append_stop _ _
            (fun x hx => List.mem_takeWhile_imp (p := fun c => c == '#') (l := l)
              (by rw [hall]; exact hx)) (by simp)
      | cons c0 r1 =>
        have hc0hash : (c0 == '#') = false := by
          have := List.head?_dropWhile_not (fun c => c == '#') l
          rw [hr] at this
          simpa using this
        have hdecomp : l = l.takeWhile (fun c => c == '#') ++ c0 :: r1 := by
          conv_lhs => rw [← List.takeWhile_append_dropWhile (p := fun c => c == '#') (l := l)]
          rw [hr]
        conv_lhs => rw [hdecomp]
        rw [List.append_assoc, List.cons_append]
        exact takeWhile_append_stop _ _
          (fun x hx => List.mem_takeWhile_imp (p := fun c => c == '#') hx) hc0hash
    unfold tryHeader
    rw [htake, if_neg h16]

theorem tryHeader_shape (hashes ws g' tail : List Char) (w0 g0 : Char)
    (hh : ∀ x ∈ hashes, (x == '#') = true)
    (h1 : 1 ≤ hashes.length) (h6 : hashes.length ≤ 6)
    (hwsall : ∀ x ∈ w0 :: ws, isPySpace x = true)
    (hg0 : isPySpace g0 = false)
    (hgnl : ∀ x ∈ g0 :: g', (x != '\n') = true)
    (htail : tail = [] ∨ ∃ r, tail = '\n' :: r) :
    tryHeader (hashes ++ w0 :: (ws ++ (g0 :: (g' ++ tail))))
      = some (hashes.length, g0 :: g', tail) := by
  have hw0 : isPySpace w0 = true := hwsall w0 (List.mem_cons_self w0 ws)
  have hw0hash : (w0 == '#') = false := isPySpace_ne_hash hw0
  have htake : (hashes ++ w0 :: (ws ++ (g0 :: (g' ++ tail)))).takeWhile (fun c => c == '#')
      = hashes := takeWhile_append_stop hashes _ hh hw0hash
  have hdrop : (hashes ++ w0 :: (ws ++ (g0 :: (g' ++ tail)))).dropWhile (fun c => c == '#')
      = w0 :: (ws ++ (g0 :: (g' ++ tail))) := dropWhile_append_stop hashes _ hh hw0hash
  have htakews : ((w0 :: ws) ++ (g0 :: (g' ++ tail))).takeWhile isPySpace = w0 :: ws :=
    takeWhile_append_stop (w0 :: ws) _ hwsall hg0
  have hdropws : ((w0 :: ws) ++ (g0 :: (g' ++ tail))).dropWhile isPySpace = g0 :: (g' ++ tail) :=
    dropWhile_append_stop (w0 :: ws) _ hwsall hg0
  have hcap : (g0 :: (g' ++ tail)).takeWhile (fun c => c != '\n') = g0 :: g' := by
    rcases htail with h0 | ⟨r, hr⟩
    · rw [h0]
      simp only [List.append_nil]
      exact List.takeWhile_eq_self_iff.mpr hgnl
    · rw [hr]
      exact takeWhile_append_stop (g0 :: g') _ hgnl (by simp)
  have hrest : (g0 :: (g' ++ tail)).dropWhile (fun c => c != '\n') = tail := by
    rcases htail with h0 | ⟨r, hr⟩
    · rw [h0]
      simp only [List.append_nil]
      exact List.dropWhile_eq_nil_iff.mpr hgnl
    · rw [hr]
      exact dropWhile_append_stop (g0 :: g') _ hgnl (by simp)
  unfold tryHeader
  rw [htake, hdrop, if_pos ⟨h1, h6⟩]
  have hcaw : capAfterWs (w0 :: (ws ++ (g0 :: (g' ++ tail))))
      = some (g0 :: g', tail) := by
    unfold capAfterWs
    rw [show w0 :: (ws ++ (g0 :: (g' ++ tail))) = (w0 :: ws) ++ (g0 :: (g' ++ tail)) by simp]
    rw [htakews, hdropws]
    simp only [List.isEmpty_cons]
    rw [hcap, hrest]
    simp
  rw [hcaw]

theorem specLineHeader_some_tryHeader {l tail : List Char} {m : Nat} {t : String}
    (hnl : '\n' ∉ l) (hsome : specLineHeader l = some (m, t))
    (htail : tail = [] ∨ ∃ r, tail = '\n' :: r) :
    tryHeader (l ++ tail) = some (m, t.data, tail) := by
  unfold specLineHeader at hsome
  simp only [] at hsome
  split at hsome
  · rename_i hguard
    obtain ⟨h1, h6, hws, hcontent⟩ := hguard
    simp only [Option.some.injEq, Prod.mk.injEq] at hsome
    obtain ⟨hm, ht⟩ := hsome
    obtain ⟨w0, ws', hw⟩ := List.exists_cons_of_ne_nil hws
    obtain ⟨g0, g', hg⟩ := List.exists_cons_of_ne_nil hcontent
    have hwsall : ∀ x ∈ w0 :: ws', isPySpace x = true := by
      intro x hx
      exact List.mem_takeWhile_imp (p := isPySpace) (hw ▸ hx)
    have hg0 : isPySpace g0 = false := by
      have := List.head?_dropWhile_not isPySpace (l.dropWhile (fun c => c == '#'))
      rw [hg] at this
      simpa using this
    have hgnl : ∀ x ∈ g0 :: g', (x != '\n') = true := by
      intro x hx
      have hx1 : x ∈ (l.dropWhile (fun c => c == '#')).dropWhile isPySpace := hg ▸ hx
      have hxl : x ∈ l :=
        (List.dropWhile_sublist _).mem ((List.dropWhile_sublist _).mem hx1)
      have hne : x ≠ '\n' := by
        intro hh
        exact hnl (hh ▸ hxl)
      simpa using hne
    have hh : ∀ x ∈ l.takeWhile (fun c => c == '#'), (x == '#') = true :=
      fun x hx => List.mem_takeWhile_imp (p := fun c => c == '#') hx
    have hsplit1 : l.takeWhile (fun c => c == '#') ++ l.dropWhile (fun c => c == '#') = l :=
      List.takeWhile_append_dropWhile _ _
    have hsplit2 : (l.dropWhile (fun c => c == '#')).takeWhile isPySpace
        ++ (l.dropWhile (fun c => c == '#')).dropWhile isPySpace
        = l.dropWhile (fun c => c == '#') :=
      List.takeWhile_append_dropWhile _ _
    have hdec : l ++ tail
        = l.takeWhile (fun c => c == '#') ++ w0 :: (ws' ++ (g0 :: (g' ++ tail))) := by
      conv_lhs => rw [← hsplit1, ← hsplit2, hw, hg]
      simp [List.append_assoc]
    have ht2 : t.data = g0 :: g' := by
      rw [← ht, hg]
    rw [hdec, tryHeader_shape _ _ _ _ _ _ hh h1 h6 hwsall hg0 hgnl htail, hm, ht2]
  · simp at hsome

theorem headersF_mid_line : ∀ (l : List Char), '\n' ∉ l → ∀ (k : Nat) (rest : List Char),
    headersFromF (k + l.length + 1) false (l ++ '\n' :: rest) = headersFromF k true rest := by
  intro l
  induction l with
  | nil => intro _ k rest; rfl
  | cons c l2 ih =>
    intro hnl k rest
    have hc : (c == '\n') = false := by
      have : c ≠ '\n' := fun hh => hnl (hh ▸ List.mem_cons_self c l2)
      simpa using this
    calc headersFromF (k + (c :: l2).length + 1) false ((c :: l2) ++ '\n' :: rest)
        = headersFromF (k + l2.length + 1) (c == '\n') (l2 ++ '\n' :: rest) := rfl
      _ = headersFromF (k + l2.length + 1) false (l2 ++ '\n' :: rest) := by rw [hc]
      _ = headersFromF k true rest := ih (fun hm => hnl (List.mem_cons_of_mem _ hm)) k rest

theorem headersF_skip_line {l rest : List Char} (hnl : '\n' ∉ l)
    (hnone : tryHeader (l ++ '\n' :: rest) = none) :
    ∀ k, headersFromF (k + l.length + 1) true (l ++ '\n' :: rest) = headersFromF k true rest := by
  intro k
  cases l with
  | nil =>
    have htry : tryHeader ('\n' :: rest) = none := by simpa using hnone
    show headersFromF (k + 1) true ('\n' :: rest) = headersFromF k true rest
    simp [headersFromF, htry]
  | cons c l2 =>
    have hc : (c == '\n') = false := by
      have : c ≠ '\n' := fun hh => hnl (hh ▸ List.mem_cons_self c l2)
      simpa using this
    have htry : tryHeader (c :: (l2 ++ '\n' :: rest)) = none := by simpa using hnone
    have hmid := headersF_mid_line l2 (fun hm => hnl (List.mem_cons_of_mem _ hm)) k rest
    show headersFromF ((k + l2.length + 1) + 1) true (c :: (l2 ++ '\n' :: rest))
        = headersFromF k true rest
    simp only [headersFromF, htry]
    simp [hc, hmid]

theorem headersF_match_line {l rest : List Char} {m : Nat} {cap : List Char}
    (hl : l ≠ []) (hsome : tryHeader (l ++ '\n' :: rest) = some (m, cap, '\n' :: rest)) :
    ∀ k, headersFromF (k + 2) true (l ++ '\n' :: rest)
      = (m, String.mk cap) :: headersFromF k true rest := by
  intro k
  cases l with
  | nil => exact absurd rfl hl
  | cons c l2 =>
    have htry : tryHeader (c :: (l2 ++ '\n' :: rest)) = some (m, cap, '\n' :: rest) := by
      simpa using hsome
    show headersFromF ((k + 1) + 1) true (c :: (l2 ++ '\n' :: rest))
        = (m, String.mk cap) :: headersFromF k true rest
    simp only [headersFromF, htry]
    show (m, String.mk cap) :: headersFromF k ('\n' == '\n') rest
        = (m, String.mk cap) :: headersFromF k true rest
    simp

theorem headersF_last_skip {l : List Char} (hnl : '\n' ∉ l) (hnone : tryHeader l = none) :
    ∀ fuel, headersFromF fuel true l = [] := by
  intro fuel
  cases fuel with
  | zero => rfl
  | succ n =>
    cases l with
    | nil => rfl
    | cons c l2 =>
      have hc : (c == '\n') = false := by
        have : c ≠ '\n' := fun hh => hnl (hh ▸ List.mem_cons_self c l2)
        simpa using this
      have hrest := headersFromF_false_no_nl n l2 (fun hm => hnl (List.mem_cons_of_mem _ hm))
      simp only [headersFromF, hnone]
      simp [hc, hrest]

theorem headersF_last_match {l : List Char} {m : Nat} {cap : List Char}
    (hl : l ≠ []) (hsome : tryHeader l = some (m, cap, [])) :
    ∀ k, headersFromF (k + 1) true l = [(m, String.mk cap)] := by
  intro k
  cases l with
  | nil => exact absurd rfl hl
  | cons c l2 =>
    simp only [headersFromF, hsome]
    simp [headersFromF_nil_input k false]

theorem specLineHeader_ne_nil {l : List Char} {p : Nat × String}
    (h : specLineHeader l = some p) : l ≠ [] := by
  intro hh
  rw [hh] at h
  simp [specLineHeader] at h

theorem headersF_joinLines :
    ∀ (lines : List (List Char)),
      (∀ l ∈ lines, '\n' ∉ l) → (∀ l ∈ lines, tameLine l = true) →
      ∀ k, headersFromF (k + headerScanCost lines) true (joinLines lines)
        = lines.filterMap (fun l => specLineHeader l) := by
  intro lines
  induction lines with
  | nil =>
    intro _ _ k
    simpa using headersFromF_nil_input (k + headerScanCost []) true
  | cons l rest ih =>
    intro hnl htame k
    have hnl_l : '\n' ∉ l := hnl l (List.mem_cons_self _ _)
    have htame_l : tameLine l = true := htame l (List.mem_cons_self _ _)
    have hnl_r : ∀ l2 ∈ rest, '\n' ∉ l2 := fun l2 hm => hnl l2 (List.mem_cons_of_mem _ hm)
    have htame_r : ∀ l2 ∈ rest, tameLine l2 = true :=
      fun l2 hm => htame l2 (List.mem_cons_of_mem _ hm)
    cases rest with
    | nil =>
      cases hspec : specLineHeader l with
      | none =>
        have htry : tryHeader l = none := by
          simpa using specLineHeader_none_tryHeader htame_l hspec (Or.inl rfl)
        have hskip := headersF_last_skip hnl_l htry (k + headerScanCost [l])
        simp only [joinLines] at hskip ⊢
        rw [hskip]
        simp [hspec]
      | some p =>
        obtain ⟨m, t⟩ := p
        have hlne : l ≠ [] := specLineHeader_ne_nil hspec
        have htry : tryHeader l = some (m, t.data, []) := by
          simpa using specLineHeader_some_tryHeader hnl_l hspec (Or.inl rfl)
        have hcost : headerScanCost [l] = 2 := by simp [headerScanCost, hspec]
        have hmatch := headersF_last_match hlne htry (k + 1)
        have hmk : String.mk t.data = t := rfl
        rw [hmk] at hmatch
        show headersFromF (k + headerScanCost [l]) true (joinLines [l])
            = List.filterMap (fun l => specLineHeader l) [l]
        rw [hcost]
        simp only [joinLines]
        rw [show k + 2 = (k + 1) + 1 from rfl, hmatch]
        simp [hspec]
    | cons l2 rest2 =>
      have hjoin : joinLines (l :: l2 :: rest2) = l ++ '\n' :: joinLines (l2 :: rest2) := rfl
      cases hspec : specLineHeader l with
      | none =>
        have htry : tryHeader (l ++ '\n' :: joinLines (l2 :: rest2)) = none :=
          specLineHeader_none_tryHeader htame_l hspec
            (Or.inr ⟨joinLines (l2 :: rest2), rfl⟩)
        have hcost : headerScanCost (l :: l2 :: rest2)
            = (l.length + 1) + headerScanCost (l2 :: rest2) := by
          simp [headerScanCost, hspec]
        have hfuel : k + headerScanCost (l :: l2 :: rest2)
            = (k + headerScanCost (l2 :: rest2)) + l.length + 1 := by
          rw [hcost]; omega
        rw [hjoin, hfuel, headersF_skip_line hnl_l htry, ih hnl_r htame_r]
        simp [hspec]
      | some p =>
        obtain ⟨m, t⟩ := p
        have hlne : l ≠ [] := specLineHeader_ne_nil hspec
        have htry : tryHeader (l ++ '\n' :: joinLines (l2 :: rest2))
            = some (m, t.data, '\n' :: joinLines (l2 :: rest2)) :=
          specLineHeader_some_tryHeader hnl_l hspec (Or.inr ⟨joinLines (l2 :: rest2), rfl⟩)
        have hcost : headerScanCost (l :: l2 :: rest2) = 2 + headerScanCost (l2 :: rest2) := by
          simp [headerScanCost, hspec]
        have hfuel : k + headerScanCost (l :: l2 :: rest2)
            = (k + headerScanCost (l2 :: rest2)) + 2 := by
          rw [hcost]; omega
        have hmk : String.mk t.data = t := rfl
        rw [hjoin, hfuel, headersF_match_line hlne htry, ih hnl_r htame_r, hmk]
        simp [hspec]

theorem headerScanCost_le :
    ∀ lines : List (List Char), headerScanCost lines ≤ (joinLines lines).length + 1 := by
  intro lines
  induction lines with
  | nil => simp [headerScanCost, joinLines]
  | cons l rest ih =>
    have hle : (if (specLineHeader l).isSome then 2 else l.length + 1) ≤ l.length + 1 := by
      cases hspec : specLineHeader l with
      | none => simp
      | some p =>
        have hlne : l ≠ [] := specLineHeader_ne_nil hspec
        have hpos : 0 < l.length := List.length_pos.mpr hlne
        simp only [Option.isSome_some, if_true]
        omega
    cases rest with
    | nil =>
      show (if (specLineHeader l).isSome then 2 else l.length + 1) + headerScanCost [] ≤ _
      simp only [joinLines, headerScanCost]
      omega
    | cons l2 rest2 =>
      have hj : (joinLines (l :: l2 :: rest2)).length
          = l.length + 1 + (joinLines (l2 :: rest2)).length := by
        simp [joinLines]
        omega
      show (if (specLineHeader l).isSome then 2 else l.length + 1)
          + headerScanCost (l2 :: rest2) ≤ _
      rw [hj]
      omega

/-! ## Claims -/

/-- Claim C4, counterexample.  The claim predicts a header for every
line whose first non-whitespace characters are 1-6 hashes followed by
whitespace, with the trimmed remainder as text; on the input
`" # A\n# B \n"` it would therefore yield `[(1, "A"), (1, "B")]`.  The
code's regex `^(#{1,6})\s+(.+)$` is anchored at the line start (the
indented `" # A"` line yields nothing) and does not trim the captured
remainder on the right (`"B "` keeps its trailing blank), so the actual
result is `[(1, "B ")]`. -/
theorem header_anchor_trim_cex :
    headersOf " # A\n# B \n" = [(1, "B ")] ∧
    headersOf " # A\n# B \n" ≠ [(1, "A"), (1, "B")] := by
  constructor
  · rfl
  · decide

/-- Claim C4 (amended): a header is recorded for exactly those lines
that begin at column 0 (no leading whitespace permitted) with 1-6 `#`
followed by whitespace; the recorded level is the count of leading `#`
and the recorded text is the remainder after the separating whitespace,
without right-trimming.  Proved universally for documents of tame lines
(`tameLine`: a line beginning with 1-6 `#` has something other than
whitespace after them, which excludes the regex's cross-line `\s+`
behaviour): the extracted headers are exactly the per-line results of
`specLineHeader`, in document order.  In particular for input
`"# A\n## B\n"` the headers are `[(1, "A"), (2, "B")]`; a `#` not
followed by whitespace yields no header, as do more than six `#`. -/
theorem header_extraction_amended :
    (∀ lines : List (List Char),
      (∀ l ∈ lines, '\n' ∉ l) → (∀ l ∈ lines, tameLine l = true) →
      headersOf (String.mk (joinLines lines))
        = lines.filterMap (fun l => specLineHeader l)) ∧
    headersOf "# A\n## B\n" = [(1, "A"), (2, "B")] ∧
    headersOf " # A\n" = [] ∧
    headersOf "# A \n" = [(1, "A ")] ∧
    headersOf "#A\n" = [] ∧
    headersOf "####### A\n" = [] := by
  refine ⟨?_, rfl, rfl, rfl, rfl, rfl⟩
  intro lines hnl htame
  unfold headersOf
  show headersFromF ((joinLines lines).length + 1) true (joinLines lines) = _
  have hle := headerScanCost_le lines
  have hk : (joinLines lines).length + 1
      = ((joinLines lines).length + 1 - headerScanCost lines) + headerScanCost lines := by
    omega
  rw [hk]
  exact headersF_joinLines lines hnl htame _

/-- Claim C4, witness for the amended universal statement: the document
assembled from the lines `"# A"`, `"## B"` and a final empty line (that
is, `"# A\n## B\n"`) satisfies both hypotheses, and its extracted
headers are the per-line results `[(1, "A"), (2, "B")]`. -/
theorem header_extraction_amended_witness :
    (∀ l ∈ [("# A".data : List Char), "## B".data, []], '\n' ∉ l) ∧
    (∀ l ∈ [("# A".data : List Char), "## B".data, []], tameLine l = true) ∧
    headersOf (String.mk (joinLines ["# A".data, "## B".data, []]))
      = List.filterMap (fun l => specLineHeader l) [("# A".data : List Char), "## B".data, []] :=
  ⟨by decide, by decide,
    header_extraction_amended.1 ["# A".data, "## B".data, []] (by decide) (by decide)⟩

/-- Claim C5: the spec and the repository's own test
(`tests/test_text_processor.py` expects the block content without a
trailing newline) say the recorded code block is the text strictly
between the fence lines, so `"hello"`; but the regex
`` ```(?:\w+)?\n([\s\S]*?)``` `` captures everything up to the closing
fence marker itself, retaining the newline that ends the last content
line: the code yields `["hello\n"]`, contradicting its own test. -/
theorem code_block_trailing_newline_bug :
    blocksOf "```\nhello\n```" = ["hello\n"] ∧
    blocksOf "```\nhello\n```" ≠ ["hello"] ∧
    (read_markdown_structure "```\nhello\n```").code_blocks = ["hello\n"] := by
  refine ⟨rfl, ?_, rfl⟩
  decide

/-- Claim C6, counterexample.  The claim says content dangling after an
unterminated fence is not emitted as plain lines elsewhere in the
structure; but the four extraction regexes run independently over the
whole content, so the bullet line inside the unterminated fenced region
of `"```\n- item\n"` is still reported as a bullet item. -/
theorem dangling_fence_cex :
    blocksOf "```\n- item\n" = [] ∧
    bulletsOf "```\n- item\n" = ["item"] ∧
    bulletsOf "```\n- item\n" ≠ [] := by
  refine ⟨rfl, rfl, ?_⟩
  decide

/-- Claim C6 (amended): an unterminated code fence (opening fence with
no later closing fence) yields no code block for that region —
universally, any input with at most one fence position produces no code
block; however the header, bullet and numbered extractors operate
independently on the entire content, so the dangling lines can still be
recorded by them. -/
theorem dangling_fence_amended :
    (∀ s : String, fenceCount s.data ≤ 1 →
      (read_markdown_structure s).code_blocks = []) ∧
    (read_markdown_structure "```\nhello\n").code_blocks = [] ∧
    (read_markdown_structure "```\n- d\n# H\n1. n\n").code_blocks = [] ∧
    (read_markdown_structure "```\n- d\n# H\n1. n\n").bullet_lists = ["d"] ∧
    (read_markdown_structure "```\n- d\n# H\n1. n\n").headers = [(1, "H")] ∧
    (read_markdown_structure "```\n- d\n# H\n1. n\n").numbered_lists = ["n"] := by
  refine ⟨?_, rfl, rfl, rfl, rfl, rfl⟩
  intro s h
  exact blocksFromF_eq_nil_of_one_fence _ _ h

/-- Claim C6, witness for the amended universal statement: the
unterminated-fence input `"```\nhello\n"` has a single fence position
and yields no code block. -/
theorem dangling_fence_amended_witness :
    fenceCount ("```\nhello\n" : String).data ≤ 1 ∧
    (read_markdown_structure "```\nhello\n").code_blocks = [] :=
  ⟨by decide, dangling_fence_amended.1 "```\nhello\n" (by decide)⟩

/-- Claim C8: extraction is deterministic, idempotent and side-effect
free.  The embedding of `read_markdown_file`'s extraction is a pure
function of the content (the Python code applies `re.findall` to the
in-memory string and mutates nothing), so two extractions of the same
string are field-for-field equal by reflexivity. -/
theorem extract_idempotent (s : String) :
    (read_markdown_structure s).headers = (read_markdown_structure s).headers ∧
    (read_markdown_structure s).bullet_lists = (read_markdown_structure s).bullet_lists ∧
    (read_markdown_structure s).numbered_lists = (read_markdown_structure s).numbered_lists ∧
    (read_markdown_structure s).code_blocks = (read_markdown_structure s).code_blocks ∧
    (read_markdown_structure s).raw_content = (read_markdown_structure s).raw_content ∧
    read_markdown_structure s = read_markdown_structure s :=
  ⟨rfl, rfl, rfl, rfl, rfl, rfl⟩

/-- Claim C7: extraction never fails (all the embedded extractors are
total functions), `raw_content` is always the unmodified input, and a
construct-free input yields empty sequences for all four fields.  A
string with zero markdown constructs is formalised as one whose
characters include no construct marker: no `#`, no bullet marker
`-`/`*`/`+`, no digit and no backtick. -/
theorem extract_no_constructs :
    (∀ s : String, (read_markdown_structure s).raw_content = s) ∧
    (∀ s : String, (∀ c ∈ s.data, markerFree c = true) →
      read_markdown_structure s =
        { raw_content := s, headers := [], bullet_lists := [],
          numbered_lists := [], code_blocks := [] }) := by
  constructor
  · intro s
    rfl
  · intro s h
    have key : ∀ c ∈ s.data,
        c ≠ '#' ∧ isBulletChar c = false ∧ c.isDigit = false ∧ c ≠ backtick := by
      intro c hc
      have hm := h c hc
      simp [markerFree] at hm
      exact ⟨hm.1.1.1, hm.1.1.2, hm.1.2, hm.2⟩
    have h1 : ∀ c ∈ s.data, c ≠ '#' := fun c hc => (key c hc).1
    have h2 : ∀ c ∈ s.data, isBulletChar c = false := fun c hc => (key c hc).2.1
    have h3 : ∀ c ∈ s.data, c.isDigit = false := fun c hc => (key c hc).2.2.1
    have h4 : ∀ c ∈ s.data, c ≠ backtick := fun c hc => (key c hc).2.2.2
    simp [read_markdown_structure, headersOf, bulletsOf, numberedOf, blocksOf,
      headersFromF_eq_nil _ _ _ h1, bulletsFromF_eq_nil _ _ _ h2,
      numberedFromF_eq_nil _ _ _ h3, blocksFromF_eq_nil _ _ h4]

/-- Claim C7, witness: a concrete construct-free string satisfies the
marker-freeness hypothesis, and extraction returns the all-empty
structure carrying the input as `raw_content`. -/
theorem extract_no_constructs_witness :
    (∀ c ∈ ("Just plain text.\nAnd a second line.\n" : String).data, markerFree c = true) ∧
    read_markdown_structure "Just plain text.\nAnd a second line.\n" =
      { raw_content := "Just plain text.\nAnd a second line.\n", headers := [],
        bullet_lists := [], numbered_lists := [], code_blocks := [] } :=
  ⟨by decide, extract_no_constructs.2 _ (by decide)⟩

/-- Claim C9: every `(level, text)` pair recorded in the `headers`
field has `1 ≤ level ≤ 6`; the regex `^(#{1,6})\s+(.+)$` can only bind
its first group to a run of one to six `#`. -/
theorem header_levels_bounded (s : String) (p : Nat × String)
    (h : p ∈ (read_markdown_structure s).headers) : 1 ≤ p.1 ∧ p.1 ≤ 6 := by
  cases p with
  | mk a b => exact headersFromF_bounds _ _ _ a b h

/-- Claim C9, witness: the pair `(1, "A")` is among the headers of
`"# A\n"` and its level lies within the bounds. -/
theorem header_levels_bounded_witness :
    ((1, "A") : Nat × String) ∈ (read_markdown_structure "# A\n").headers ∧
    (1 ≤ ((1, "A") : Nat × String).1 ∧ ((1, "A") : Nat × String).1 ≤ 6) :=
  ⟨by decide, header_levels_bounded "# A\n" (1, "A") (by decide)⟩

/-- Claim C1, counterexample.  With every engine unavailable
(`GTTS_AVAILABLE = False`, `PYTTSX3_AVAILABLE = False`, engine mode
`auto`), `text_to_speech` falls back to `_create_placeholder`, which
returns `True` — so the outcome's success flag is `true`, not the
`false` the claim requires (the Python outcome is a plain
`(success, message)` pair and carries no `engineUsed` field at all). -/
theorem placeholder_success_flag_cex :
    (text_to_speech ⟨false, false, false, Except.error "x", Except.error "y"⟩
        "auto" "data" "hi" "o.wav" []).fst.fst = true ∧
    ¬ (text_to_speech ⟨false, false, false, Except.error "x", Except.error "y"⟩
        "auto" "data" "hi" "o.wav" []).fst.fst = false := by
  refine ⟨rfl, ?_⟩
  decide

/-- Claim C1 (amended): when no engine candidate is available, a
placeholder artifact is produced at the requested path (and a companion
`.txt` note), and the returned outcome has success = `true` with
message `"Created placeholder (no TTS engines available)"` (the
placeholder write is modelled as succeeding; the outcome is a
`(success, message)` pair with no engine field).  When candidates were
attempted and every one failed with pyttsx3 present, the outcome is the
last candidate's failure — success = `false` with pyttsx3's error
message — and no placeholder is produced (the file system is returned
unchanged). -/
theorem total_failure_amended (dataDir text out : String) (fs : FS) (pe : Bool)
    (gr : Except String Unit) (pr : Except String Bool) (e e2 : String) :
    (text_to_speech ⟨false, false, pe, gr, pr⟩ "auto" dataDir text out fs).fst
        = (true, "Created placeholder (no TTS engines available)") ∧
    fsRead (text_to_speech ⟨false, false, pe, gr, pr⟩ "auto" dataDir text out fs).snd
        (resolvePath dataDir out) = some placeholderWav ∧
    text_to_speech ⟨true, true, true, Except.error e, Except.error e2⟩
        "auto" dataDir text out fs
      = ((false, "Error using pyttsx3: " ++ e2), fs) := by
  refine ⟨rfl, ?_, rfl⟩
  exact fsRead_write_self _ _ _

/-- Claim C2, counterexample.  With gTTS available but failing with
reason `"boom"` and pyttsx3 available and succeeding, the returned
message is pyttsx3's success message; the first candidate's failure
reason is discarded by `text_to_speech` ((`success, message`) is
overwritten) and does not occur in the message, contrary to the
claim. -/
theorem fallback_message_cex :
    (text_to_speech ⟨true, true, true, Except.error "boom", Except.ok true⟩
        "auto" "data" "hi" "o.wav" []).fst
      = (true, "Successfully generated audio using pyttsx3: data/o.wav") ∧
    containsSubstr "Successfully generated audio using pyttsx3: data/o.wav" "boom" = false := by
  exact ⟨by decide, by decide⟩

/-- Claim C2 (amended): with two available candidates where the
higher-priority gTTS fails and the lower-priority pyttsx3 succeeds, the
outcome has success = `true` and its message is pyttsx3's success
message naming the engine used; the first candidate's failure reason is
discarded — the outcome is independent of it and the message does not
include it. -/
theorem fallback_discards_reason_amended (dataDir text out : String) (fs : FS)
    (e e2 : String) :
    text_to_speech ⟨true, true, true, Except.error e, Except.ok true⟩
        "auto" dataDir text out fs
      = ((true, "Successfully generated audio using pyttsx3: " ++ resolvePath dataDir out), fs) ∧
    text_to_speech ⟨true, true, true, Except.error e, Except.ok true⟩
        "auto" dataDir text out fs
      = text_to_speech ⟨true, true, true, Except.error e2, Except.ok true⟩
          "auto" dataDir text out fs :=
  ⟨rfl, rfl⟩

/-- Claim C3: an error raised inside one engine's synthesis attempt
neither escapes `text_to_speech` nor aborts the remaining candidates:
`_use_gtts` converts any raised exception into a recorded failure pair
`(false, "Error using Google TTS (requires internet): " ++ e)`, and the
call then proceeds to the next candidate (pyttsx3, when present) or to
the placeholder fallback.  The embedded functions are total, so no
exceptional outcome is propagated to the caller in any case. -/
theorem engine_error_guarded (dataDir text out : String) (fs : FS) (e : String)
    (pa pe : Bool) (pr : Except String Bool) :
    use_gtts ⟨true, pa, pe, Except.error e, pr⟩ (resolvePath dataDir out)
        = (false, "Error using Google TTS (requires internet): " ++ e) ∧
    text_to_speech ⟨true, pa, pe, Except.error e, pr⟩ "auto" dataDir text out fs
      = (if pa && pe then
           (use_pyttsx3 ⟨true, pa, pe, Except.error e, pr⟩ (resolvePath dataDir out), fs)
         else create_placeholder text (resolvePath dataDir out) fs) :=
  ⟨rfl, rfl⟩

/-- Claim C10, counterexample.  For the output file `"note.txt"` the
companion text path coincides with the requested path itself, so
`_create_placeholder`'s second write (the `PLACEHOLDER AUDIO FILE`
marker) overwrites the note containing the text; placeholder creation
still reports success, but the subsequent `speech_to_text` returns the
marker content rather than the stripped original text. -/
theorem placeholder_roundtrip_txt_cex :
    (text_to_speech ⟨false, false, false, Except.error "x", Except.error "y"⟩
        "auto" "data" "hi" "note.txt" []).fst.fst = true ∧
    containsTD ("hi" : String).data = false ∧
    speech_to_text "data"
        (text_to_speech ⟨false, false, false, Except.error "x", Except.error "y"⟩
          "auto" "data" "hi" "note.txt" []).snd "note.txt"
      = placeholderWav ∧
    placeholderWav ≠ pyStrip "hi" := by
  exact ⟨rfl, by decide, by decide, by decide⟩

set_option maxRecDepth 4000

/-- Claim C10 (amended): for every text not containing `"---"`, if
`text_to_speech` falls back to placeholder creation (no engine
available) for an output file whose companion `.txt` path differs from
the output path itself (i.e. the requested output does not already end
in `.txt`), then a subsequent `speech_to_text` on the same output file
recovers the original text with surrounding whitespace stripped from
the companion `.txt` file. -/
theorem placeholder_roundtrip_amended (dataDir text out : String) (fs : FS) (pe : Bool)
    (gr : Except String Unit) (pr : Except String Bool)
    (hTD : containsTD text.data = false)
    (hne : withSuffix (resolvePath dataDir out) ".txt" ≠ resolvePath dataDir out) :
    speech_to_text dataDir
        (text_to_speech ⟨false, false, pe, gr, pr⟩ "auto" dataDir text out fs).snd out
      = pyStrip text := by
  have hsnd : (text_to_speech ⟨false, false, pe, gr, pr⟩ "auto" dataDir text out fs).snd
      = fsWrite (fsWrite fs (withSuffix (resolvePath dataDir out) ".txt")
          (placeholderNoteFor text)) (resolvePath dataDir out) placeholderWav := rfl
  have htail : placeholderNoteTail.data
      = '\n' :: '\n' :: '-' :: '-' :: '-' ::
        (" This is a placeholder for text-to-speech output ---\n--- To enable actual TTS, install one of these packages: ---\n--- pip install pyttsx3 ---\n--- pip install gtts ---\n").data := by
    rfl
  have hdata : (placeholderNoteFor text).data = text.data ++ placeholderNoteTail.data :=
    String.data_append text placeholderNoteTail
  rw [hsnd]
  unfold speech_to_text
  dsimp only []
  rw [fsRead_write_ne _ _ _ _ (Ne.symm hne), fsRead_write_self]
  show (if containsTD (placeholderNoteFor text).data then
          pyStrip (String.mk (splitTD (placeholderNoteFor text).data))
        else placeholderNoteFor text)
      = pyStrip text
  rw [hdata, htail, if_pos (by rw [containsTD_marker]),
      splitTD_marker _ text.data hTD, pyStrip_append_nl2]

/-- Claim C10, witness: the text `"  hi  \n"` contains no `"---"`, the
output `"o.wav"` resolves to a path whose `.txt` companion differs from
it, and the placeholder round trip recovers the stripped text. -/
theorem placeholder_roundtrip_amended_witness :
    containsTD ("  hi  \n" : String).data = false ∧
    withSuffix (resolvePath "data" "o.wav") ".txt" ≠ resolvePath "data" "o.wav" ∧
    speech_to_text "data"
        (text_to_speech ⟨false, false, false, Except.error "x", Except.error "y"⟩
          "auto" "data" "  hi  \n" "o.wav" []).snd "o.wav"
      = pyStrip "  hi  \n" :=
  ⟨by decide, by decide,
    placeholder_roundtrip_amended "data" "  hi  \n" "o.wav" [] false
      (Except.error "x") (Except.error "y") (by decide) (by decide)⟩
